import Mathlib

/-!
Verification of the kernel-resident tracing programs of the CodSpeed runner.

The development shallowly embeds the two BPF C programs
(`crates/exectrack/src/ebpf/c/exectrack.bpf.c` together with the shared
`crates/codspeed-bpf/src/c/codspeed/process_tracking.h`, and
`crates/memtrack/src/ebpf/c/memtrack.bpf.c`) into Lean.  BPF hash maps are
modelled as association lists with overwrite-on-update semantics
(`bpf_map_update_elem` with `BPF_ANY`); the ring buffer is modelled as the
list of submitted events.  Machine integers are modelled as `Nat` with an
explicit `% 2 ^ 64` where 64-bit overflow matters (the `calloc` product);
map keys are only compared for equality, so they are plain `Nat`.
-/

namespace CodspeedBPF

/-- Key-presence test of `bpf_map_lookup_elem` on a marker map: only whether
the key is present matters. -/
def hasKey (l : List Nat) (k : Nat) : Bool :=
  match l with
  | [] => false
  | x :: xs => if x == k then true else hasKey xs k

/-- The `tracked_pids` map stores a constant one-byte marker and is only ever
tested for key presence, so it is modelled as the list of present keys;
`bpf_map_update_elem` of the constant marker is observationally an insert. -/
def insertKey (l : List Nat) (k : Nat) : List Nat :=
  if hasKey l k then l else k :: l

/-- `bpf_map_delete_elem` on the marker map. -/
def removeKey (l : List Nat) (k : Nat) : List Nat :=
  l.filter (fun x => x != k)

/-- `bpf_map_lookup_elem` on a hash map modelled as an association list:
the value of the first entry whose key matches, if any. -/
def lookupVal {α : Type} (m : List (Nat × α)) (k : Nat) : Option α :=
  match m with
  | [] => none
  | p :: rest => if p.1 == k then some p.2 else lookupVal rest k

/-- `bpf_map_update_elem` with `BPF_ANY`: any existing entry for the key is
overwritten by the new value. -/
def updateVal {α : Type} (m : List (Nat × α)) (k : Nat) (v : α) : List (Nat × α) :=
  (k, v) :: m.filter (fun p => p.1 != k)

/-- `bpf_map_delete_elem` on a hash map. -/
def deleteKey {α : Type} (m : List (Nat × α)) (k : Nat) : List (Nat × α) :=
  m.filter (fun p => p.1 != k)

/-- The two shared process-tracking maps declared by `PROCESS_TRACKING_MAPS()`
in `process_tracking.h` (and declared identically at the top of
`memtrack.bpf.c`): `tracked_pids : u32 → u8` and `pids_ppid : u32 → u32`. -/
structure TrackState where
  tracked_pids : List Nat
  pids_ppid : List (Nat × Nat)
  deriving DecidableEq

/-- The bounded ancestor walk of `is_tracked`: the `#pragma unroll` loop body
with `fuel` iterations left — follow `pids_ppid` one level, fail on a
missing link, succeed on a `tracked_pids` hit. -/
def is_tracked_walk (s : TrackState) : Nat → Nat → Bool
  | _, 0 => false
  | pid, n + 1 =>
    match lookupVal s.pids_ppid pid with
    | none => false
    | some ppid =>
      if hasKey s.tracked_pids ppid then true
      else is_tracked_walk s ppid n

/-- `is_tracked` from `process_tracking.h` (the copy in `memtrack.bpf.c` is
line-for-line the same): direct `tracked_pids` check, then the parent walk
with the hard bound of 5 levels. -/
def is_tracked (s : TrackState) (pid : Nat) : Bool :=
  if hasKey s.tracked_pids pid then true
  else is_tracked_walk s pid 5

/-- `handle_fork` from `process_tracking.h`: if the parent is tracked, insert
the child into `tracked_pids`, record the child→parent link in `pids_ppid`
and report 1; otherwise report 0 and mutate nothing. -/
def handle_fork (s : TrackState) (parent_pid child_pid : Nat) : TrackState × Bool :=
  if is_tracked s parent_pid then
    ({ tracked_pids := insertKey s.tracked_pids child_pid,
       pids_ppid := updateVal s.pids_ppid child_pid parent_pid }, true)
  else (s, false)

/-- `handle_exit` from `process_tracking.h`: unconditionally delete `pid` from
both maps. -/
def handle_exit (s : TrackState) (pid : Nat) : TrackState :=
  { tracked_pids := removeKey s.tracked_pids pid,
    pids_ppid := deleteKey s.pids_ppid pid }

/-- The `n`-th ancestor of `pid` under the `pids_ppid` links, when the chain
is long enough. -/
def ancestorN (s : TrackState) : Nat → Nat → Option Nat
  | pid, 0 => some pid
  | pid, n + 1 =>
    match lookupVal s.pids_ppid pid with
    | none => none
    | some p => ancestorN s p n

lemma ancestorN_one (s : TrackState) (pid a : Nat)
    (h : lookupVal s.pids_ppid pid = some a) : ancestorN s pid 1 = some a := by
  simp [ancestorN, h]

lemma ancestorN_succ (s : TrackState) (pid p : Nat) (n : Nat)
    (h : lookupVal s.pids_ppid pid = some p) :
    ancestorN s pid (n + 1) = ancestorN s p n := by
  simp [ancestorN, h]

/-- If a tracked ancestor sits `d + 1` links up and the walk has at least
`d + 1` steps of fuel left, the walk finds it. -/
lemma walk_reaches (s : TrackState) :
    ∀ d pid a fuel, d + 1 ≤ fuel → ancestorN s pid (d + 1) = some a →
      hasKey s.tracked_pids a = true → is_tracked_walk s pid fuel = true := by
  intro d
  induction d with
  | zero =>
    intro pid a fuel hfuel hanc htr
    match fuel, hfuel with
    | f + 1, _ =>
      cases hp : lookupVal s.pids_ppid pid with
      | none => simp [ancestorN, hp] at hanc
      | some p =>
        have : p = a := by simpa [ancestorN, hp] using hanc
        subst this
        simp [is_tracked_walk, hp, htr]
  | succ d ih =>
    intro pid a fuel hfuel hanc htr
    match fuel, hfuel with
    | f + 1, hfuel =>
      cases hp : lookupVal s.pids_ppid pid with
      | none => simp [ancestorN, hp] at hanc
      | some p =>
        have hanc2 : ancestorN s p (d + 1) = some a := by
          simpa [ancestorN_succ s pid p (d + 1) hp] using hanc
        have hf : d + 1 ≤ f := by omega
        by_cases hc : hasKey s.tracked_pids p = true
        · simp [is_tracked_walk, hp, hc]
        · simp only [is_tracked_walk, hp]
          rw [if_neg hc]
          exact ih p a f hf hanc2 htr

/-- If every ancestor reachable within `fuel` links is untracked, the walk
fails. -/
lemma walk_misses (s : TrackState) :
    ∀ fuel pid,
      (∀ i q, 1 ≤ i → i ≤ fuel → ancestorN s pid i = some q →
        hasKey s.tracked_pids q = false) →
      is_tracked_walk s pid fuel = false := by
  intro fuel
  induction fuel with
  | zero => intro pid _; simp [is_tracked_walk]
  | succ f ih =>
    intro pid h
    cases hp : lookupVal s.pids_ppid pid with
    | none => simp [is_tracked_walk, hp]
    | some p =>
      have hcp : hasKey s.tracked_pids p = false :=
        h 1 p (le_refl 1) (by omega) (ancestorN_one s pid p hp)
      simp only [is_tracked_walk, hp]
      rw [if_neg (by simp [hcp])]
      refine ih p ?_
      intro i q h1 hle hanc
      refine h (i + 1) q (by omega) (by omega) ?_
      rw [ancestorN_succ s pid p i hp]
      exact hanc

/-- C1: if some ancestor at distance `d ≤ 5` (distance 0 being `pid` itself)
is in `tracked_pids`, `is_tracked` answers true; if no node at distance
`i ≤ 5` from `pid` is in `tracked_pids` (in particular when the `pids_ppid`
chain ends before an armed ancestor, or the nearest armed ancestor sits 6 or
more links up with untracked intermediates), `is_tracked` answers false.
Distance 5 therefore yields true and distance 6 yields false. -/
theorem is_tracked_depth_boundary (s : TrackState) (pid : Nat) :
    (∀ d a, d ≤ 5 → ancestorN s pid d = some a →
      hasKey s.tracked_pids a = true → is_tracked s pid = true) ∧
    ((∀ i, i ≤ 5 →
        ((ancestorN s pid i).all fun q => !(hasKey s.tracked_pids q)) = true) →
      is_tracked s pid = false) := by
  constructor
  · intro d a hd hanc htr
    cases d with
    | zero =>
      have hpa : pid = a := by simpa [ancestorN] using hanc
      subst hpa
      simp [is_tracked, htr]
    | succ d =>
      unfold is_tracked
      by_cases hc : hasKey s.tracked_pids pid = true
      · simp [hc]
      · rw [if_neg hc]
        exact walk_reaches s d pid a 5 (by omega) hanc htr
  · intro h
    have hmiss : ∀ i q, 1 ≤ i → i ≤ 5 → ancestorN s pid i = some q →
        hasKey s.tracked_pids q = false := by
      intro i q _ hle hanc
      have := h i hle
      rw [hanc] at this
      simpa using this
    have hdirect : hasKey s.tracked_pids pid = false := by
      have := h 0 (by omega)
      simpa [ancestorN] using this
    unfold is_tracked
    rw [if_neg (by simp [hdirect])]
    exact walk_misses s 5 pid hmiss

/-- Chain of length 5 from pid 1 to the armed pid 100: tracked. -/
def c1StateA : TrackState :=
  { tracked_pids := [100],
    pids_ppid := [(1, 2), (2, 3), (3, 4), (4, 5), (5, 100)] }

/-- Chain of length 6 from pid 1 to the armed pid 100, all intermediates
untracked: not detected. -/
def c1StateB : TrackState :=
  { tracked_pids := [100],
    pids_ppid := [(1, 2), (2, 3), (3, 4), (4, 5), (5, 6), (6, 100)] }

/-- Witness for C1 at the 5-versus-6 boundary. -/
theorem is_tracked_depth_boundary_witness :
    is_tracked c1StateA 1 = true ∧ is_tracked c1StateB 1 = false := by
  constructor
  · exact (is_tracked_depth_boundary c1StateA 1).1 5 100 (by decide) (by decide)
      (by decide)
  · exact (is_tracked_depth_boundary c1StateB 1).2 (by decide)

lemma hasKey_insertKey_self (l : List Nat) (k : Nat) :
    hasKey (insertKey l k) k = true := by
  unfold insertKey
  by_cases h : hasKey l k = true
  · rw [if_pos h]; exact h
  · rw [if_neg h]; simp [hasKey]

lemma lookupVal_updateVal_self {α : Type} (m : List (Nat × α)) (k : Nat) (v : α) :
    lookupVal (updateVal m k v) k = some v := by
  simp [lookupVal, updateVal]

/-- C2: `handle_fork(parent, child)` propagates tracking exactly when
`is_tracked(parent)` holds at call time — in that case it reports true,
inserts the child into `tracked_pids` and records child→parent in
`pids_ppid`; otherwise it reports false and leaves both maps unchanged. -/
theorem handle_fork_iff_parent_tracked (s : TrackState) (parent_pid child_pid : Nat) :
    (is_tracked s parent_pid = true →
      (handle_fork s parent_pid child_pid).2 = true ∧
      hasKey (handle_fork s parent_pid child_pid).1.tracked_pids child_pid = true ∧
      lookupVal (handle_fork s parent_pid child_pid).1.pids_ppid child_pid
        = some parent_pid) ∧
    (is_tracked s parent_pid = false →
      (handle_fork s parent_pid child_pid).2 = false ∧
      (handle_fork s parent_pid child_pid).1 = s) := by
  constructor
  · intro h
    refine ⟨by simp [handle_fork, h], ?_, ?_⟩
    · simp only [handle_fork, h, if_true]
      exact hasKey_insertKey_self s.tracked_pids child_pid
    · simp only [handle_fork, h, if_true]
      exact lookupVal_updateVal_self s.pids_ppid child_pid parent_pid
  · intro h
    simp [handle_fork, h]

/-- Witness for C2: pid 10 is armed; forking 10→11 propagates, while forking
from the untracked pid 99 mutates nothing. -/
theorem handle_fork_iff_parent_tracked_witness :
    ((handle_fork ⟨[10], []⟩ 10 11).2 = true ∧
      hasKey (handle_fork ⟨[10], []⟩ 10 11).1.tracked_pids 11 = true ∧
      lookupVal (handle_fork ⟨[10], []⟩ 10 11).1.pids_ppid 11 = some 10) ∧
    ((handle_fork ⟨[10], []⟩ 99 11).2 = false ∧
      (handle_fork ⟨[10], []⟩ 99 11).1 = ⟨[10], []⟩) :=
  ⟨(handle_fork_iff_parent_tracked ⟨[10], []⟩ 10 11).1 (by decide),
   (handle_fork_iff_parent_tracked ⟨[10], []⟩ 99 11).2 (by decide)⟩

lemma hasKey_removeKey_self (l : List Nat) (k : Nat) :
    hasKey (removeKey l k) k = false := by
  induction l with
  | nil => simp [removeKey, hasKey]
  | cons x xs ih =>
    by_cases h : x = k
    · have hbne : (x != k) = false := by simp [h]
      simpa [removeKey, List.filter_cons, hbne] using ih
    · have hbne : (x != k) = true := by simp [h]
      have hbeq : (x == k) = false := by simp [h]
      simp only [removeKey, List.filter_cons, hbne, if_true]
      simp only [hasKey, hbeq, if_false]
      simpa [removeKey] using ih

lemma lookupVal_deleteKey_self {α : Type} (m : List (Nat × α)) (k : Nat) :
    lookupVal (deleteKey m k) k = none := by
  induction m with
  | nil => simp [deleteKey, lookupVal]
  | cons x xs ih =>
    by_cases h : x.1 = k
    · have hbne : (x.1 != k) = false := by simp [h]
      simpa [deleteKey, List.filter_cons, hbne] using ih
    · have hbne : (x.1 != k) = true := by simp [h]
      have hbeq : (x.1 == k) = false := by simp [h]
      simp only [deleteKey, List.filter_cons, hbne, if_true]
      simp only [lookupVal, hbeq, if_false]
      simpa [deleteKey] using ih

lemma filter_self_idem {α : Type} (p : α → Bool) (l : List α) :
    (l.filter p).filter p = l.filter p := by
  induction l with
  | nil => rfl
  | cons x xs ih =>
    by_cases h : p x = true
    · simp [List.filter_cons, h, ih]
    · simp [List.filter_cons, h, ih]

/-- C4: after `handle_exit(pid)` the query `is_tracked(pid)` answers false —
both the direct `tracked_pids` entry and the `pids_ppid` link of `pid` are
gone, so the ancestor walk stops immediately whatever remains tracked — and
`handle_exit` is idempotent: a second call leaves the maps unchanged. -/
theorem handle_exit_untracks_and_idempotent (s : TrackState) (pid : Nat) :
    is_tracked (handle_exit s pid) pid = false ∧
    handle_exit (handle_exit s pid) pid = handle_exit s pid := by
  constructor
  · have hc : hasKey (handle_exit s pid).tracked_pids pid = false :=
      hasKey_removeKey_self s.tracked_pids pid
    have hp : lookupVal (handle_exit s pid).pids_ppid pid = none :=
      lookupVal_deleteKey_self s.pids_ppid pid
    unfold is_tracked
    rw [if_neg (by simp [hc])]
    simp [is_tracked_walk, hp]
  · unfold handle_exit removeKey deleteKey
    simp [filter_self_idem]

/-- The `pid` half of `bpf_get_current_pid_tgid()`: the high 32 bits of the
combined 64-bit id (`tid >> 32` in the C sources). -/
def pidOf (tid : Nat) : Nat := tid / 2 ^ 32

end CodspeedBPF

namespace Memtrack

open CodspeedBPF

/-- Event type codes of `crates/memtrack/src/ebpf/c/event.h`: the allocation
program's namespace. -/
def EVENT_TYPE_MALLOC : Nat := 1

def EVENT_TYPE_FREE : Nat := 2

def EVENT_TYPE_CALLOC : Nat := 3

def EVENT_TYPE_REALLOC : Nat := 4

def EVENT_TYPE_ALIGNED_ALLOC : Nat := 5

def EVENT_TYPE_MMAP : Nat := 6

def EVENT_TYPE_MUNMAP : Nat := 7

def EVENT_TYPE_BRK : Nat := 8

/-- The payload union of `struct event` in `memtrack`'s `event.h`, as a sum
type (one variant per shape). -/
inductive EventData where
  | alloc (addr size : Nat)
  | free (addr : Nat)
  | realloc (old_addr new_addr size : Nat)
  | mmap (addr size : Nat)
  deriving DecidableEq

/-- `struct event` of `memtrack`'s `event.h`: common header plus payload. -/
structure Event where
  event_type : Nat
  timestamp : Nat
  pid : Nat
  tid : Nat
  data : EventData
  deriving DecidableEq

/-- The whole shared-map state of `memtrack.bpf.c`: the two process-tracking
maps, the `tracking_enabled` control slot (`none` when the single array cell
was never written), one pending-argument map per probed primitive
(`name##_arg` / `name##_args` / `*_temp` from the `UPROBE_*` macros and the
mmap/brk tracepoints), and the ring buffer modelled as the list of submitted
events. -/
structure MemState where
  tracked_pids : List Nat
  pids_ppid : List (Nat × Nat)
  tracking_enabled : Option Nat
  malloc_arg : List (Nat × Nat)
  calloc_arg : List (Nat × Nat)
  aligned_alloc_arg : List (Nat × Nat)
  memalign_arg : List (Nat × Nat)
  realloc_args : List (Nat × (Nat × Nat))
  mmap_temp : List (Nat × (Nat × Nat))
  brk_temp : List (Nat × Nat)
  events : List Event
  deriving DecidableEq

/-- The process-tracking view of the `memtrack` state. -/
def trackOf (s : MemState) : TrackState :=
  { tracked_pids := s.tracked_pids, pids_ppid := s.pids_ppid }

/-- `is_enabled` of `memtrack.bpf.c`: the value of `tracking_enabled[0]`, or 1
when the lookup finds nothing ("default to enabled if map not
initialized"). -/
def is_enabled (s : MemState) : Nat :=
  match s.tracking_enabled with
  | none => 1
  | some v => v

/-- `store_param`: if the calling process is tracked, store the captured
value keyed by the full 64-bit thread id; otherwise leave the map alone. -/
def store_param (s : MemState) (m : List (Nat × Nat)) (tid value : Nat) :
    List (Nat × Nat) :=
  if is_tracked (trackOf s) (pidOf tid) then updateVal m tid value else m

/-- `take_param`: read-then-delete of the pending entry for the current
thread id; yields the value found (if any) and the updated map. -/
def take_param {α : Type} (m : List (Nat × α)) (tid : Nat) :
    Option α × List (Nat × α) :=
  match lookupVal m tid with
  | none => (none, m)
  | some v => (some v, deleteKey m tid)

/-- The `SUBMIT_EVENT` macro body: drop the event unless the current process
is tracked and `is_enabled()` is non-zero; otherwise reserve a ring-buffer
slot, fill header and payload, and submit (reservation is modelled as always
succeeding; a full ring buffer only drops events). -/
def SUBMIT_EVENT (s : MemState) (ts tid evt_type : Nat) (d : EventData) :
    MemState :=
  if !(is_tracked (trackOf s) (pidOf tid)) || is_enabled s == 0 then s
  else
    { s with
      events := s.events ++
        [{ event_type := evt_type, timestamp := ts, pid := pidOf tid,
           tid := tid % 2 ^ 32, data := d }] }

/-- `submit_alloc_event(size, addr)`. -/
def submit_alloc_event (s : MemState) (ts tid size addr : Nat) : MemState :=
  SUBMIT_EVENT s ts tid EVENT_TYPE_MALLOC (.alloc addr size)

/-- `submit_aligned_alloc_event(size, addr)`. -/
def submit_aligned_alloc_event (s : MemState) (ts tid size addr : Nat) :
    MemState :=
  SUBMIT_EVENT s ts tid EVENT_TYPE_ALIGNED_ALLOC (.alloc addr size)

/-- `submit_calloc_event(size, addr)`. -/
def submit_calloc_event (s : MemState) (ts tid size addr : Nat) : MemState :=
  SUBMIT_EVENT s ts tid EVENT_TYPE_CALLOC (.alloc addr size)

/-- `submit_free_event(addr)`. -/
def submit_free_event (s : MemState) (ts tid addr : Nat) : MemState :=
  SUBMIT_EVENT s ts tid EVENT_TYPE_FREE (.free addr)

/-- `submit_realloc_event(old_addr, new_addr, size)`. -/
def submit_realloc_event (s : MemState) (ts tid old_addr new_addr size : Nat) :
    MemState :=
  SUBMIT_EVENT s ts tid EVENT_TYPE_REALLOC (.realloc old_addr new_addr size)

/-- `submit_mmap_event(addr, size, event_type)`. -/
def submit_mmap_event (s : MemState) (ts tid addr size evt_type : Nat) :
    MemState :=
  SUBMIT_EVENT s ts tid evt_type (.mmap addr size)

/-- `uprobe_malloc` (from `UPROBE_ARG_RET(malloc, PT_REGS_PARM1(ctx), ...)`):
capture the requested size at entry. -/
def uprobe_malloc (s : MemState) (tid size : Nat) : MemState :=
  { s with malloc_arg := store_param s s.malloc_arg tid size }

/-- `uretprobe_malloc`: take the pending size; drop on a missing entry or a
null return; otherwise submit `{addr = ret, size = arg0}`. -/
def uretprobe_malloc (s : MemState) (ts tid ret : Nat) : MemState :=
  match take_param s.malloc_arg tid with
  | (none, _) => s
  | (some arg0, m) =>
    let s2 := { s with malloc_arg := m }
    if ret == 0 then s2
    else submit_alloc_event s2 ts tid arg0 ret

/-- `uprobe_calloc` (from `UPROBE_ARG_RET(calloc, PT_REGS_PARM1(ctx) *
PT_REGS_PARM2(ctx), ...)`): the captured value is the unchecked 64-bit
product of the two register arguments. -/
def uprobe_calloc (s : MemState) (tid nmemb size : Nat) : MemState :=
  { s with calloc_arg := store_param s s.calloc_arg tid ((nmemb * size) % 2 ^ 64) }

/-- `uretprobe_calloc`. -/
def uretprobe_calloc (s : MemState) (ts tid ret : Nat) : MemState :=
  match take_param s.calloc_arg tid with
  | (none, _) => s
  | (some arg0, m) =>
    let s2 := { s with calloc_arg := m }
    if ret == 0 then s2
    else submit_calloc_event s2 ts tid arg0 ret

/-- `uprobe_aligned_alloc` (from `UPROBE_ARG_RET(aligned_alloc,
PT_REGS_PARM2(ctx), ...)`): the captured argument is the second register
argument, the requested size. -/
def uprobe_aligned_alloc (s : MemState) (tid size : Nat) : MemState :=
  { s with aligned_alloc_arg := store_param s s.aligned_alloc_arg tid size }

/-- `uretprobe_aligned_alloc`. -/
def uretprobe_aligned_alloc (s : MemState) (ts tid ret : Nat) : MemState :=
  match take_param s.aligned_alloc_arg tid with
  | (none, _) => s
  | (some arg0, m) =>
    let s2 := { s with aligned_alloc_arg := m }
    if ret == 0 then s2
    else submit_aligned_alloc_event s2 ts tid arg0 ret

/-- `uprobe_memalign` (same shape as `aligned_alloc`, size in the second
register argument). -/
def uprobe_memalign (s : MemState) (tid size : Nat) : MemState :=
  { s with memalign_arg := store_param s s.memalign_arg tid size }

/-- `uretprobe_memalign`. -/
def uretprobe_memalign (s : MemState) (ts tid ret : Nat) : MemState :=
  match take_param s.memalign_arg tid with
  | (none, _) => s
  | (some arg0, m) =>
    let s2 := { s with memalign_arg := m }
    if ret == 0 then s2
    else submit_aligned_alloc_event s2 ts tid arg0 ret

/-- `uprobe_free` (from `UPROBE_RET(free, PT_REGS_PARM1(ctx), ...)`): a single
entry hook, dropped on a null address, submitted immediately otherwise. -/
def uprobe_free (s : MemState) (ts tid addr : Nat) : MemState :=
  if addr == 0 then s
  else submit_free_event s ts tid addr

/-- `uprobe_realloc` (from `UPROBE_ARGS_RET(realloc, PT_REGS_PARM2(ctx),
PT_REGS_PARM1(ctx), ...)`): when tracked, store the pair
`{arg0 = new size, arg1 = old pointer}`. -/
def uprobe_realloc (s : MemState) (tid ptr size : Nat) : MemState :=
  if !(is_tracked (trackOf s) (pidOf tid)) then s
  else { s with realloc_args := updateVal s.realloc_args tid (size, ptr) }

/-- `uretprobe_realloc`: copy then delete the pending pair, drop on a null
return, otherwise submit `{old_addr = arg1, new_addr = ret, size = arg0}`. -/
def uretprobe_realloc (s : MemState) (ts tid ret : Nat) : MemState :=
  match take_param s.realloc_args tid with
  | (none, _) => s
  | (some a, m) =>
    let s2 := { s with realloc_args := m }
    if ret == 0 then s2
    else submit_realloc_event s2 ts tid a.2 ret a.1

/-- `tracepoint_sys_enter_mmap`: when tracked, remember `(addr, len)` for the
matching syscall exit. -/
def tracepoint_sys_enter_mmap (s : MemState) (tid addr len : Nat) : MemState :=
  if is_tracked (trackOf s) (pidOf tid) then
    { s with mmap_temp := updateVal s.mmap_temp tid (addr, len) }
  else s

/-- `tracepoint_sys_exit_mmap`: take the pending pair; report only a strictly
positive (signed) return value, as `{addr = ret, size = len}`. -/
def tracepoint_sys_exit_mmap (s : MemState) (ts tid : Nat) (ret : Int) :
    MemState :=
  match take_param s.mmap_temp tid with
  | (none, _) => s
  | (some args, m) =>
    let s2 := { s with mmap_temp := m }
    if ret ≤ 0 then s2
    else submit_mmap_event s2 ts tid ret.toNat args.2 EVENT_TYPE_MMAP

/-- `tracepoint_sys_enter_munmap`: single hook; drop when address or length is
zero, submit `{addr, len}` directly otherwise. -/
def tracepoint_sys_enter_munmap (s : MemState) (ts tid addr len : Nat) :
    MemState :=
  if addr == 0 || len == 0 then s
  else submit_mmap_event s ts tid addr len EVENT_TYPE_MUNMAP

/-- `tracepoint_sys_enter_brk`: when tracked, remember the requested break. -/
def tracepoint_sys_enter_brk (s : MemState) (tid requested_brk : Nat) :
    MemState :=
  if is_tracked (trackOf s) (pidOf tid) then
    { s with brk_temp := updateVal s.brk_temp tid requested_brk }
  else s

/-- `tracepoint_sys_exit_brk`: take the pending request; `new_brk` is the
signed return reinterpreted as `u64`, so `new_brk <= 0` holds only at zero;
drop queries (`req == 0`) and failures, else submit `{addr = new_brk, 0}`. -/
def tracepoint_sys_exit_brk (s : MemState) (ts tid : Nat) (ret : Int) :
    MemState :=
  match take_param s.brk_temp tid with
  | (none, _) => s
  | (some req, m) =>
    let s2 := { s with brk_temp := m }
    let new_brk : Nat := (ret % (2 ^ 64 : Int)).toNat
    if req == 0 || new_brk == 0 then s2
    else submit_mmap_event s2 ts tid new_brk 0 EVENT_TYPE_BRK

/-- `tracepoint_sched_fork` of `memtrack.bpf.c`: when the parent is tracked,
auto-track the child and record the parent link (the body of `handle_fork`,
with the result ignored); no event is emitted by this program's fork hook. -/
def tracepoint_sched_fork (s : MemState) (parent_pid child_pid : Nat) :
    MemState :=
  if is_tracked (trackOf s) parent_pid then
    { s with tracked_pids := insertKey s.tracked_pids child_pid,
             pids_ppid := updateVal s.pids_ppid child_pid parent_pid }
  else s

/-- One kernel trigger of the allocation/mapping program: one constructor per
hook of `memtrack.bpf.c`, plus the scheduler exec/exit tracepoints, to which
`memtrack.bpf.c` attaches no program at all. -/
inductive MemHook where
  | uprobeMalloc (tid size : Nat)
  | uretprobeMalloc (tid ret : Nat)
  | uprobeFree (tid addr : Nat)
  | uprobeCalloc (tid nmemb size : Nat)
  | uretprobeCalloc (tid ret : Nat)
  | uprobeRealloc (tid ptr size : Nat)
  | uretprobeRealloc (tid ret : Nat)
  | uprobeAlignedAlloc (tid size : Nat)
  | uretprobeAlignedAlloc (tid ret : Nat)
  | uprobeMemalign (tid size : Nat)
  | uretprobeMemalign (tid ret : Nat)
  | schedFork (parent_pid child_pid : Nat)
  | sysEnterMmap (tid addr len : Nat)
  | sysExitMmap (tid : Nat) (ret : Int)
  | sysEnterMunmap (tid addr len : Nat)
  | sysEnterBrk (tid requested_brk : Nat)
  | sysExitBrk (tid : Nat) (ret : Int)
  | schedExec (pid : Nat)
  | schedExit (pid : Nat)
  deriving DecidableEq

/-- The allocation/mapping program as a whole: dispatch one kernel trigger to
the hook `memtrack.bpf.c` attaches there.  `memtrack.bpf.c` defines no
handler for `sched_process_exec` or `sched_process_exit`, so those kernel
events leave this program's maps and ring buffer untouched. -/
def memtrackStep (s : MemState) (ts : Nat) : MemHook → MemState
  | .uprobeMalloc tid size => uprobe_malloc s tid size
  | .uretprobeMalloc tid ret => uretprobe_malloc s ts tid ret
  | .uprobeFree tid addr => uprobe_free s ts tid addr
  | .uprobeCalloc tid nmemb size => uprobe_calloc s tid nmemb size
  | .uretprobeCalloc tid ret => uretprobe_calloc s ts tid ret
  | .uprobeRealloc tid ptr size => uprobe_realloc s tid ptr size
  | .uretprobeRealloc tid ret => uretprobe_realloc s ts tid ret
  | .uprobeAlignedAlloc tid size => uprobe_aligned_alloc s tid size
  | .uretprobeAlignedAlloc tid ret => uretprobe_aligned_alloc s ts tid ret
  | .uprobeMemalign tid size => uprobe_memalign s tid size
  | .uretprobeMemalign tid ret => uretprobe_memalign s ts tid ret
  | .schedFork parent_pid child_pid => tracepoint_sched_fork s parent_pid child_pid
  | .sysEnterMmap tid addr len => tracepoint_sys_enter_mmap s tid addr len
  | .sysExitMmap tid ret => tracepoint_sys_exit_mmap s ts tid ret
  | .sysEnterMunmap tid addr len => tracepoint_sys_enter_munmap s ts tid addr len
  | .sysEnterBrk tid requested_brk => tracepoint_sys_enter_brk s tid requested_brk
  | .sysExitBrk tid ret => tracepoint_sys_exit_brk s ts tid ret
  | .schedExec _ => s
  | .schedExit _ => s

end Memtrack

namespace Exectrack

open CodspeedBPF

/-- Event type codes of `crates/exectrack/src/ebpf/c/event.h`: the lifecycle
namespace. -/
def EVENT_TYPE_FORK : Nat := 1

def EVENT_TYPE_EXEC : Nat := 2

def EVENT_TYPE_EXIT : Nat := 3

/-- `struct event` of `exectrack`'s `event.h` (`comm` is the captured command
name, truncated by `bpf_get_current_comm` to 16 bytes in the C struct). -/
structure Event where
  event_type : Nat
  timestamp : Nat
  pid : Nat
  tid : Nat
  ppid : Nat
  comm : String
  deriving DecidableEq

/-- The shared-map state of `exectrack.bpf.c`: the two maps created by
`PROCESS_TRACKING_MAPS()` and the ring buffer, modelled as the list of
submitted events. -/
structure ExecState where
  tracked_pids : List Nat
  pids_ppid : List (Nat × Nat)
  events : List Event
  deriving DecidableEq

/-- The process-tracking view of the `exectrack` state. -/
def trackOf (s : ExecState) : TrackState :=
  { tracked_pids := s.tracked_pids, pids_ppid := s.pids_ppid }

/-- Write back a mutated process-tracking view. -/
def withTrack (s : ExecState) (t : TrackState) : ExecState :=
  { s with tracked_pids := t.tracked_pids, pids_ppid := t.pids_ppid }

/-- `submit_event` of `exectrack.bpf.c`: dropped unless `pid` or `ppid` is
tracked; otherwise reserve, fill and submit one lifecycle record (reservation
modelled as always succeeding). -/
def submit_event (s : ExecState) (ts tid_full evt_type pid ppid : Nat)
    (comm : String) : ExecState :=
  if !(is_tracked (trackOf s) pid) && !(is_tracked (trackOf s) ppid) then s
  else
    { s with
      events := s.events ++
        [{ event_type := evt_type, timestamp := ts, pid := pid,
           tid := tid_full % 2 ^ 32, ppid := ppid, comm := comm }] }

/-- `tracepoint_sched_fork` of `exectrack.bpf.c`: run the shared
`handle_fork`; when it reports propagation, emit a fork event carrying the
child as subject pid and the parent as ppid. -/
def tracepoint_sched_fork (s : ExecState) (ts tid_full parent_pid child_pid : Nat)
    (comm : String) : ExecState :=
  let r := handle_fork (trackOf s) parent_pid child_pid
  let s2 := withTrack s r.1
  if r.2 then submit_event s2 ts tid_full EVENT_TYPE_FORK child_pid parent_pid comm
  else s2

/-- `tracepoint_sched_exec` of `exectrack.bpf.c`: emit an exec event for a
tracked pid; no map mutation. -/
def tracepoint_sched_exec (s : ExecState) (ts tid_full : Nat) (comm : String) :
    ExecState :=
  if is_tracked (trackOf s) (pidOf tid_full) then
    submit_event s ts tid_full EVENT_TYPE_EXEC (pidOf tid_full) 0 comm
  else s

/-- `tracepoint_sched_exit` of `exectrack.bpf.c`: for a tracked pid, emit an
exit event and then run the shared `handle_exit` to clean both maps. -/
def tracepoint_sched_exit (s : ExecState) (ts tid_full : Nat) (comm : String) :
    ExecState :=
  if is_tracked (trackOf s) (pidOf tid_full) then
    let s2 := submit_event s ts tid_full EVENT_TYPE_EXIT (pidOf tid_full) 0 comm
    withTrack s2 (handle_exit (trackOf s2) (pidOf tid_full))
  else s

end Exectrack

namespace Memtrack

open CodspeedBPF

/-- The submitted-events view of `SUBMIT_EVENT`: one record is appended
exactly when the caller is tracked and the enable flag is non-zero. -/
lemma SUBMIT_EVENT_events (s : MemState) (ts tid et : Nat) (d : EventData) :
    (SUBMIT_EVENT s ts tid et d).events =
      if is_tracked (trackOf s) (pidOf tid) = true ∧ is_enabled s ≠ 0 then
        s.events ++ [⟨et, ts, pidOf tid, tid % 2 ^ 32, d⟩]
      else s.events := by
  unfold SUBMIT_EVENT
  by_cases h1 : is_tracked (trackOf s) (pidOf tid) = true
  · by_cases h2 : is_enabled s = 0
    · simp [h1, h2]
    · simp [h1, h2]
  · have h1f : is_tracked (trackOf s) (pidOf tid) = false := by
      simpa using h1
    simp [h1f]

/-- C3: for a thread of a tracked process with tracking enabled, the return
hook of each single-argument allocator primitive (`malloc`, `aligned_alloc`,
`memalign`) behaves as: with a pending captured argument `A` and a non-null
return `R`, exactly one event `{addr = R, size = A}` is emitted; a null
return emits nothing; a return with no pending entry for the thread emits
nothing. -/
theorem single_arg_return_correlation (s : MemState) (ts tid ret arg : Nat)
    (htracked : is_tracked (trackOf s) (pidOf tid) = true)
    (henabled : is_enabled s ≠ 0) :
    (lookupVal s.malloc_arg tid = some arg → ret ≠ 0 →
      (uretprobe_malloc s ts tid ret).events = s.events ++
        [⟨EVENT_TYPE_MALLOC, ts, pidOf tid, tid % 2 ^ 32, .alloc ret arg⟩]) ∧
    ((uretprobe_malloc s ts tid 0).events = s.events) ∧
    (lookupVal s.malloc_arg tid = none →
      (uretprobe_malloc s ts tid ret).events = s.events) ∧
    (lookupVal s.aligned_alloc_arg tid = some arg → ret ≠ 0 →
      (uretprobe_aligned_alloc s ts tid ret).events = s.events ++
        [⟨EVENT_TYPE_ALIGNED_ALLOC, ts, pidOf tid, tid % 2 ^ 32, .alloc ret arg⟩]) ∧
    ((uretprobe_aligned_alloc s ts tid 0).events = s.events) ∧
    (lookupVal s.aligned_alloc_arg tid = none →
      (uretprobe_aligned_alloc s ts tid ret).events = s.events) ∧
    (lookupVal s.memalign_arg tid = some arg → ret ≠ 0 →
      (uretprobe_memalign s ts tid ret).events = s.events ++
        [⟨EVENT_TYPE_ALIGNED_ALLOC, ts, pidOf tid, tid % 2 ^ 32, .alloc ret arg⟩]) ∧
    ((uretprobe_memalign s ts tid 0).events = s.events) ∧
    (lookupVal s.memalign_arg tid = none →
      (uretprobe_memalign s ts tid ret).events = s.events) := by
  refine ⟨?_, ?_, ?_, ?_, ?_, ?_, ?_, ?_, ?_⟩
  · intro hpend hret
    have hr : (ret == 0) = false := by simpa using hret
    simp only [uretprobe_malloc, take_param, hpend, hr, submit_alloc_event,
      SUBMIT_EVENT_events, Bool.false_eq_true, if_false]
    rw [if_pos ⟨htracked, henabled⟩]
  · cases hl : lookupVal s.malloc_arg tid <;>
      simp [uretprobe_malloc, take_param, hl]
  · intro hnone
    simp [uretprobe_malloc, take_param, hnone]
  · intro hpend hret
    have hr : (ret == 0) = false := by simpa using hret
    simp only [uretprobe_aligned_alloc, take_param, hpend, hr,
      submit_aligned_alloc_event, SUBMIT_EVENT_events, Bool.false_eq_true,
      if_false]
    rw [if_pos ⟨htracked, henabled⟩]
  · cases hl : lookupVal s.aligned_alloc_arg tid <;>
      simp [uretprobe_aligned_alloc, take_param, hl]
  · intro hnone
    simp [uretprobe_aligned_alloc, take_param, hnone]
  · intro hpend hret
    have hr : (ret == 0) = false := by simpa using hret
    simp only [uretprobe_memalign, take_param, hpend, hr,
      submit_aligned_alloc_event, SUBMIT_EVENT_events, Bool.false_eq_true,
      if_false]
    rw [if_pos ⟨htracked, henabled⟩]
  · cases hl : lookupVal s.memalign_arg tid <;>
      simp [uretprobe_memalign, take_param, hl]
  · intro hnone
    simp [uretprobe_memalign, take_param, hnone]

/-- A tracked pid-5 thread (full id `5 * 2^32 + 5`) with a pending
`malloc(512)` capture; the control slot was never written. -/
def c3State : MemState :=
  { tracked_pids := [5], pids_ppid := [], tracking_enabled := none,
    malloc_arg := [(5 * 2 ^ 32 + 5, 512)], calloc_arg := [],
    aligned_alloc_arg := [], memalign_arg := [], realloc_args := [],
    mmap_temp := [], brk_temp := [], events := [] }

/-- Witness for C3: the pending `malloc(512)` paired with return `4096`
yields the single event `{addr = 4096, size = 512}`; a null return yields
nothing; an `aligned_alloc` return with no pending entry yields nothing. -/
theorem single_arg_return_correlation_witness :
    ((uretprobe_malloc c3State 7 (5 * 2 ^ 32 + 5) 4096).events = [] ++
      [⟨EVENT_TYPE_MALLOC, 7, 5, 5, .alloc 4096 512⟩]) ∧
    ((uretprobe_malloc c3State 7 (5 * 2 ^ 32 + 5) 0).events = []) ∧
    ((uretprobe_aligned_alloc c3State 7 (5 * 2 ^ 32 + 5) 4096).events = []) := by
  have h := single_arg_return_correlation c3State 7 (5 * 2 ^ 32 + 5) 4096 512
    (by decide) (by decide)
  exact ⟨h.1 (by decide) (by decide), h.2.1, h.2.2.2.2.2.1 (by decide)⟩

/-- The `malloc` entry hook of a tracked caller overwrites the pending slot
of the calling thread. -/
lemma uprobe_malloc_malloc_arg (s : MemState) (tid v : Nat)
    (h : is_tracked (trackOf s) (pidOf tid) = true) :
    (uprobe_malloc s tid v).malloc_arg = updateVal s.malloc_arg tid v := by
  simp [uprobe_malloc, store_param, h]

/-- The number of entries a map holds for one key. -/
def countKey {α : Type} (m : List (Nat × α)) (k : Nat) : Nat :=
  (m.filter (fun p => p.1 == k)).length

lemma filter_ne_then_eq_nil {α : Type} (m : List (Nat × α)) (k : Nat) :
    (m.filter (fun p => p.1 != k)).filter (fun p => p.1 == k) = [] := by
  induction m with
  | nil => rfl
  | cons x xs ih =>
    by_cases h : x.1 = k
    · simp [List.filter_cons, h, ih]
    · simp [List.filter_cons, h, ih]

lemma countKey_updateVal_self {α : Type} (m : List (Nat × α)) (k : Nat) (v : α) :
    countKey (updateVal m k v) k = 1 := by
  simp [countKey, updateVal, List.filter_cons, filter_ne_then_eq_nil]

lemma countKey_deleteKey_self {α : Type} (m : List (Nat × α)) (k : Nat) :
    countKey (deleteKey m k) k = 0 := by
  simp [countKey, deleteKey, filter_ne_then_eq_nil]

/-- C5: pending-call entries are keyed by thread id with overwrite-on-update,
so a map holds exactly one entry for a thread after an update and none after
the delete of a take; in the re-entrant scenario — entry `A1`, entry `A2`,
one non-null return `R` by the same tracked thread — the second capture
overwrites the first, exactly one event results and it carries size `A2`,
and no pending entry survives the return. -/
theorem pending_last_entry_wins (s : MemState) (ts tid a1 a2 ret : Nat)
    (htracked : is_tracked (trackOf s) (pidOf tid) = true)
    (henabled : is_enabled s ≠ 0) (hret : ret ≠ 0) :
    (∀ m : List (Nat × Nat), ∀ v, countKey (updateVal m tid v) tid = 1 ∧
      countKey (deleteKey m tid) tid = 0) ∧
    countKey (uprobe_malloc (uprobe_malloc s tid a1) tid a2).malloc_arg tid = 1 ∧
    lookupVal (uprobe_malloc (uprobe_malloc s tid a1) tid a2).malloc_arg tid
      = some a2 ∧
    (uretprobe_malloc (uprobe_malloc (uprobe_malloc s tid a1) tid a2) ts tid
        ret).events = s.events ++
      [⟨EVENT_TYPE_MALLOC, ts, pidOf tid, tid % 2 ^ 32, .alloc ret a2⟩] ∧
    lookupVal (uretprobe_malloc (uprobe_malloc (uprobe_malloc s tid a1) tid a2)
        ts tid ret).malloc_arg tid = none := by
  have harg1 : (uprobe_malloc s tid a1).malloc_arg = updateVal s.malloc_arg tid a1 :=
    uprobe_malloc_malloc_arg s tid a1 htracked
  have htr1 : is_tracked (trackOf (uprobe_malloc s tid a1)) (pidOf tid) = true :=
    htracked
  have harg2 : (uprobe_malloc (uprobe_malloc s tid a1) tid a2).malloc_arg
      = updateVal (updateVal s.malloc_arg tid a1) tid a2 := by
    rw [uprobe_malloc_malloc_arg _ tid a2 htr1, harg1]
  have hlook2 : lookupVal (uprobe_malloc (uprobe_malloc s tid a1) tid
      a2).malloc_arg tid = some a2 := by
    rw [harg2]; exact lookupVal_updateVal_self _ tid a2
  have htr2 : is_tracked (trackOf (uprobe_malloc (uprobe_malloc s tid a1) tid
      a2)) (pidOf tid) = true := htracked
  have hen2 : is_enabled (uprobe_malloc (uprobe_malloc s tid a1) tid a2) ≠ 0 :=
    henabled
  refine ⟨fun m v => ⟨countKey_updateVal_self m tid v, countKey_deleteKey_self m tid⟩,
    ?_, hlook2, ?_, ?_⟩
  · rw [harg2]; exact countKey_updateVal_self _ tid a2
  · have hr : (ret == 0) = false := by simpa using hret
    simp only [uretprobe_malloc, take_param, hlook2, hr, submit_alloc_event,
      SUBMIT_EVENT_events, Bool.false_eq_true, if_false]
    rw [if_pos ⟨htr2, hen2⟩]
    simp [uprobe_malloc]
  · have hr : (ret == 0) = false := by simpa using hret
    simp only [uretprobe_malloc, take_param, hlook2, hr, submit_alloc_event,
      SUBMIT_EVENT, Bool.false_eq_true, if_false]
    split <;> simp [lookupVal_deleteKey_self]

/-- Witness for C5: thread `5 * 2^32 + 5` of the tracked pid 5 enters
`malloc(100)`, re-enters with `malloc(200)`, and one return of `4096`
produces exactly the event `{addr = 4096, size = 200}`. -/
theorem pending_last_entry_wins_witness :
    lookupVal (uprobe_malloc (uprobe_malloc c3State (5 * 2 ^ 32 + 5) 100)
      (5 * 2 ^ 32 + 5) 200).malloc_arg (5 * 2 ^ 32 + 5) = some 200 ∧
    (uretprobe_malloc (uprobe_malloc (uprobe_malloc c3State (5 * 2 ^ 32 + 5)
        100) (5 * 2 ^ 32 + 5) 200) 9 (5 * 2 ^ 32 + 5) 4096).events =
      c3State.events ++ [⟨EVENT_TYPE_MALLOC, 9, 5, 5, .alloc 4096 200⟩] := by
  have h := pending_last_entry_wins c3State 9 (5 * 2 ^ 32 + 5) 100 200 4096
    (by decide) (by decide) (by decide)
  exact ⟨h.2.2.1, h.2.2.2.1⟩

/-- C6: with the control slot explicitly written to 0, no hook of the
allocation/mapping program appends any event, while the bookkeeping still
happens: a tracked thread's entry hook still overwrites its pending slot,
the return hook still consumes (reads and then deletes) it, and the fork
hook still propagates tracking into `tracked_pids` and `pids_ppid`. -/
theorem disabled_gates_emission_not_bookkeeping (s : MemState)
    (hdis : s.tracking_enabled = some 0) :
    (∀ ts h, (memtrackStep s ts h).events = s.events) ∧
    (∀ tid a, is_tracked (trackOf s) (pidOf tid) = true →
      lookupVal (uprobe_malloc s tid a).malloc_arg tid = some a) ∧
    (∀ ts tid ret,
      lookupVal (uretprobe_malloc s ts tid ret).malloc_arg tid = none) ∧
    (∀ parent_pid child_pid, is_tracked (trackOf s) parent_pid = true →
      hasKey (tracepoint_sched_fork s parent_pid child_pid).tracked_pids
        child_pid = true ∧
      lookupVal (tracepoint_sched_fork s parent_pid child_pid).pids_ppid
        child_pid = some parent_pid) := by
  refine ⟨?_, ?_, ?_, ?_⟩
  · intro ts h
    cases h with
    | uprobeMalloc tid size => simp [memtrackStep, uprobe_malloc]
    | uretprobeMalloc tid ret =>
      cases hl : lookupVal s.malloc_arg tid with
      | none => simp [memtrackStep, uretprobe_malloc, take_param, hl]
      | some a =>
        simp only [memtrackStep, uretprobe_malloc, take_param, hl]
        split
        · simp
        · simp [submit_alloc_event, SUBMIT_EVENT, is_enabled, hdis]
    | uprobeFree tid addr =>
      simp only [memtrackStep, uprobe_free]
      split
      · rfl
      · simp [submit_free_event, SUBMIT_EVENT, is_enabled, hdis]
    | uprobeCalloc tid nmemb size => simp [memtrackStep, uprobe_calloc]
    | uretprobeCalloc tid ret =>
      cases hl : lookupVal s.calloc_arg tid with
      | none => simp [memtrackStep, uretprobe_calloc, take_param, hl]
      | some a =>
        simp only [memtrackStep, uretprobe_calloc, take_param, hl]
        split
        · simp
        · simp [submit_calloc_event, SUBMIT_EVENT, is_enabled, hdis]
    | uprobeRealloc tid ptr size =>
      simp only [memtrackStep, uprobe_realloc]
      split
      · rfl
      · simp
    | uretprobeRealloc tid ret =>
      cases hl : lookupVal s.realloc_args tid with
      | none => simp [memtrackStep, uretprobe_realloc, take_param, hl]
      | some a =>
        simp only [memtrackStep, uretprobe_realloc, take_param, hl]
        split
        · simp
        · simp [submit_realloc_event, SUBMIT_EVENT, is_enabled, hdis]
    | schedFork parent_pid child_pid =>
      simp only [memtrackStep, tracepoint_sched_fork]
      split
      · simp
      · rfl
    | sysEnterMmap tid addr len =>
      simp only [memtrackStep, tracepoint_sys_enter_mmap]
      split
      · simp
      · rfl
    | sysExitMmap tid ret =>
      cases hl : lookupVal s.mmap_temp tid with
      | none => simp [memtrackStep, tracepoint_sys_exit_mmap, take_param, hl]
      | some a =>
        simp only [memtrackStep, tracepoint_sys_exit_mmap, take_param, hl]
        split
        · simp
        · simp [submit_mmap_event, SUBMIT_EVENT, is_enabled, hdis]
    | sysEnterMunmap tid addr len =>
      simp only [memtrackStep, tracepoint_sys_enter_munmap]
      split
      · rfl
      · simp [submit_mmap_event, SUBMIT_EVENT, is_enabled, hdis]
    | sysEnterBrk tid requested_brk =>
      simp only [memtrackStep, tracepoint_sys_enter_brk]
      split
      · simp
      · rfl
    | sysExitBrk tid ret =>
      cases hl : lookupVal s.brk_temp tid with
      | none => simp [memtrackStep, tracepoint_sys_exit_brk, take_param, hl]
      | some a =>
        simp only [memtrackStep, tracepoint_sys_exit_brk, take_param, hl]
        split
        · simp
        · simp [submit_mmap_event, SUBMIT_EVENT, is_enabled, hdis]
    | uprobeAlignedAlloc tid size => simp [memtrackStep, uprobe_aligned_alloc]
    | uretprobeAlignedAlloc tid ret =>
      cases hl : lookupVal s.aligned_alloc_arg tid with
      | none => simp [memtrackStep, uretprobe_aligned_alloc, take_param, hl]
      | some a =>
        simp only [memtrackStep, uretprobe_aligned_alloc, take_param, hl]
        split
        · simp
        · simp [submit_aligned_alloc_event, SUBMIT_EVENT, is_enabled, hdis]
    | uprobeMemalign tid size => simp [memtrackStep, uprobe_memalign]
    | uretprobeMemalign tid ret =>
      cases hl : lookupVal s.memalign_arg tid with
      | none => simp [memtrackStep, uretprobe_memalign, take_param, hl]
      | some a =>
        simp only [memtrackStep, uretprobe_memalign, take_param, hl]
        split
        · simp
        · simp [submit_aligned_alloc_event, SUBMIT_EVENT, is_enabled, hdis]
    | schedExec pid => rfl
    | schedExit pid => rfl
  · intro tid a htracked
    rw [uprobe_malloc_malloc_arg s tid a htracked]
    exact lookupVal_updateVal_self s.malloc_arg tid a
  · intro ts tid ret
    cases hl : lookupVal s.malloc_arg tid with
    | none => simp [uretprobe_malloc, take_param, hl]
    | some a =>
      simp only [uretprobe_malloc, take_param, hl]
      split
      · simp [lookupVal_deleteKey_self]
      · simp only [submit_alloc_event, SUBMIT_EVENT]
        split <;> simp [lookupVal_deleteKey_self]
  · intro parent_pid child_pid htracked
    simp only [tracepoint_sched_fork, htracked, if_true]
    exact ⟨hasKey_insertKey_self s.tracked_pids child_pid,
      lookupVal_updateVal_self s.pids_ppid child_pid parent_pid⟩

/-- The tracked pid 5 with tracking explicitly disabled and a pending
`malloc(64)` capture by thread `5 * 2^32 + 5`. -/
def c6State : MemState :=
  { tracked_pids := [5], pids_ppid := [], tracking_enabled := some 0,
    malloc_arg := [(5 * 2 ^ 32 + 5, 64)], calloc_arg := [],
    aligned_alloc_arg := [], memalign_arg := [], realloc_args := [],
    mmap_temp := [], brk_temp := [], events := [] }

/-- Witness for C6: while disabled, a `free` hook emits nothing, a fresh
`malloc` entry still records its pending argument, a `malloc` return still
consumes the pending entry, and a fork still propagates tracking. -/
theorem disabled_gates_emission_witness :
    (memtrackStep c6State 3 (.uprobeFree (5 * 2 ^ 32 + 5) 77)).events
      = c6State.events ∧
    lookupVal (uprobe_malloc c6State (5 * 2 ^ 32 + 5) 128).malloc_arg
      (5 * 2 ^ 32 + 5) = some 128 ∧
    lookupVal (uretprobe_malloc c6State 4 (5 * 2 ^ 32 + 5) 9).malloc_arg
      (5 * 2 ^ 32 + 5) = none ∧
    hasKey (tracepoint_sched_fork c6State 5 6).tracked_pids 6 = true := by
  have h := disabled_gates_emission_not_bookkeeping c6State rfl
  exact ⟨h.1 3 (.uprobeFree (5 * 2 ^ 32 + 5) 77),
    h.2.1 (5 * 2 ^ 32 + 5) 128 (by decide),
    h.2.2.1 4 (5 * 2 ^ 32 + 5) 9,
    (h.2.2.2 5 6 (by decide)).1⟩

/-- C8: an absent control slot means enabled — `is_enabled` yields 1 and a
tracked thread's event is emitted; any explicitly written non-zero value
also lets events through; only an explicitly written 0 suppresses
emission. -/
theorem tracking_defaults_to_enabled (s : MemState) (ts tid et : Nat)
    (d : EventData)
    (htracked : is_tracked (trackOf s) (pidOf tid) = true) :
    (s.tracking_enabled = none → is_enabled s = 1 ∧
      (SUBMIT_EVENT s ts tid et d).events =
        s.events ++ [⟨et, ts, pidOf tid, tid % 2 ^ 32, d⟩]) ∧
    (∀ v, s.tracking_enabled = some v → v ≠ 0 →
      (SUBMIT_EVENT s ts tid et d).events =
        s.events ++ [⟨et, ts, pidOf tid, tid % 2 ^ 32, d⟩]) ∧
    (s.tracking_enabled = some 0 →
      (SUBMIT_EVENT s ts tid et d).events = s.events) := by
  refine ⟨?_, ?_, ?_⟩
  · intro habs
    have he : is_enabled s = 1 := by simp [is_enabled, habs]
    exact ⟨he, by rw [SUBMIT_EVENT_events, if_pos ⟨htracked, by simp [he]⟩]⟩
  · intro v hv hvne
    have he : is_enabled s = v := by simp [is_enabled, hv]
    rw [SUBMIT_EVENT_events, if_pos ⟨htracked, by simp [he, hvne]⟩]
  · intro h0
    have he : is_enabled s = 0 := by simp [is_enabled, h0]
    rw [SUBMIT_EVENT_events, if_neg (by simp [he])]

/-- `c3State` with the control slot explicitly written to 2. -/
def c8StateTwo : MemState := { c3State with tracking_enabled := some 2 }

/-- `c3State` with the control slot explicitly written to 0. -/
def c8StateZero : MemState := { c3State with tracking_enabled := some 0 }

/-- Witness for C8: with the slot absent `is_enabled` is 1 and a free event
goes through; with 2 written it also goes through; with 0 written it is
suppressed. -/
theorem tracking_defaults_to_enabled_witness :
    (is_enabled c3State = 1 ∧
      (SUBMIT_EVENT c3State 1 (5 * 2 ^ 32 + 5) EVENT_TYPE_FREE
          (.free 8)).events = c3State.events ++
        [⟨EVENT_TYPE_FREE, 1, pidOf (5 * 2 ^ 32 + 5), (5 * 2 ^ 32 + 5) % 2 ^ 32,
          .free 8⟩]) ∧
    ((SUBMIT_EVENT c8StateTwo 1 (5 * 2 ^ 32 + 5) EVENT_TYPE_FREE
          (.free 8)).events = c8StateTwo.events ++
        [⟨EVENT_TYPE_FREE, 1, pidOf (5 * 2 ^ 32 + 5), (5 * 2 ^ 32 + 5) % 2 ^ 32,
          .free 8⟩]) ∧
    (SUBMIT_EVENT c8StateZero 1 (5 * 2 ^ 32 + 5) EVENT_TYPE_FREE
        (.free 8)).events = c8StateZero.events := by
  have h1 := tracking_defaults_to_enabled c3State 1 (5 * 2 ^ 32 + 5)
    EVENT_TYPE_FREE (.free 8) (by decide)
  have h2 := tracking_defaults_to_enabled c8StateTwo 1 (5 * 2 ^ 32 + 5)
    EVENT_TYPE_FREE (.free 8) (by decide)
  have h3 := tracking_defaults_to_enabled c8StateZero 1 (5 * 2 ^ 32 + 5)
    EVENT_TYPE_FREE (.free 8) (by decide)
  exact ⟨h1.1 rfl, h2.2.1 2 rfl (by decide), h3.2.2 rfl⟩

/-- The `calloc` entry hook of a tracked caller stores the wrapped 64-bit
product of its two register arguments. -/
lemma uprobe_calloc_calloc_arg (s : MemState) (tid nmemb size : Nat)
    (h : is_tracked (trackOf s) (pidOf tid) = true) :
    (uprobe_calloc s tid nmemb size).calloc_arg =
      updateVal s.calloc_arg tid ((nmemb * size) % 2 ^ 64) := by
  simp [uprobe_calloc, store_param, h]

/-- C9: for a tracked thread entering `calloc(count, element_size)`, the
captured size is the plain 64-bit product `count * element_size mod 2^64` —
no overflow check, no saturation — and a later non-null return emits exactly
one calloc event carrying that wrapped product as its size. -/
theorem calloc_size_is_wrapping_product (s : MemState)
    (ts tid nmemb size ret : Nat)
    (htracked : is_tracked (trackOf s) (pidOf tid) = true)
    (henabled : is_enabled s ≠ 0) (hret : ret ≠ 0) :
    lookupVal (uprobe_calloc s tid nmemb size).calloc_arg tid
      = some ((nmemb * size) % 2 ^ 64) ∧
    (uretprobe_calloc (uprobe_calloc s tid nmemb size) ts tid ret).events
      = s.events ++ [⟨EVENT_TYPE_CALLOC, ts, pidOf tid, tid % 2 ^ 32,
          .alloc ret ((nmemb * size) % 2 ^ 64)⟩] := by
  have harg : (uprobe_calloc s tid nmemb size).calloc_arg =
      updateVal s.calloc_arg tid ((nmemb * size) % 2 ^ 64) :=
    uprobe_calloc_calloc_arg s tid nmemb size htracked
  have hlook : lookupVal (uprobe_calloc s tid nmemb size).calloc_arg tid
      = some ((nmemb * size) % 2 ^ 64) := by
    rw [harg]; exact lookupVal_updateVal_self _ tid _
  have htr2 : is_tracked (trackOf (uprobe_calloc s tid nmemb size)) (pidOf tid)
      = true := htracked
  have hen2 : is_enabled (uprobe_calloc s tid nmemb size) ≠ 0 := henabled
  refine ⟨hlook, ?_⟩
  have hr : (ret == 0) = false := by simpa using hret
  simp only [uretprobe_calloc, take_param, hlook, hr, submit_calloc_event,
    SUBMIT_EVENT_events, Bool.false_eq_true, if_false]
  rw [if_pos ⟨htr2, hen2⟩]
  simp [uprobe_calloc]

/-- Witness for C9: `calloc(2^32, 2^32 + 1)` by the tracked thread wraps to a
captured size of `2^32 = 4294967296` (the true product `2^64 + 2^32`
overflows), and the event emitted on return 7 carries exactly that wrapped
size. -/
theorem calloc_size_is_wrapping_product_witness :
    lookupVal (uprobe_calloc c3State (5 * 2 ^ 32 + 5) (2 ^ 32)
      (2 ^ 32 + 1)).calloc_arg (5 * 2 ^ 32 + 5) = some 4294967296 ∧
    (uretprobe_calloc (uprobe_calloc c3State (5 * 2 ^ 32 + 5) (2 ^ 32)
        (2 ^ 32 + 1)) 11 (5 * 2 ^ 32 + 5) 7).events =
      [⟨EVENT_TYPE_CALLOC, 11, 5, 5, .alloc 7 4294967296⟩] := by
  have h := calloc_size_is_wrapping_product c3State 11 (5 * 2 ^ 32 + 5)
    (2 ^ 32) (2 ^ 32 + 1) 7 (by decide) (by decide) (by decide)
  constructor
  · rw [h.1]; decide
  · rw [h.2]; decide

end Memtrack

open CodspeedBPF

/-- A memtrack state in which pid 7 is tracked (with a recorded parent link
to pid 3), tracking enabled. -/
def c7MemState : Memtrack.MemState :=
  { tracked_pids := [7], pids_ppid := [(7, 3)], tracking_enabled := some 1,
    malloc_arg := [], calloc_arg := [], aligned_alloc_arg := [],
    memalign_arg := [], realloc_args := [], mmap_temp := [], brk_temp := [],
    events := [] }

/-- C7 counterexample: the memtrack program instance maintains its own
`tracked_pids`/`pids_ppid` maps but attaches nothing to the process-exit
tracepoint, so after the tracked pid 7 exits both of its entries are still
present — removal on exit does not hold for every program instance
maintaining a TrackedPid map. -/
theorem memtrack_exit_keeps_entries :
    Memtrack.memtrackStep c7MemState 0 (.schedExit 7) = c7MemState ∧
    hasKey (Memtrack.memtrackStep c7MemState 0 (.schedExit 7)).tracked_pids 7
      = true ∧
    lookupVal (Memtrack.memtrackStep c7MemState 0 (.schedExit 7)).pids_ppid 7
      = some 3 :=
  ⟨rfl, by decide, by decide⟩

/-- C7 amended: in the exectrack program, the exit hook of a tracked pid
removes both its `tracked_pids` entry and its `pids_ppid` entry; the
memtrack program installs no exit hook, so a process exit leaves its maps
(and ring buffer) entirely unchanged. -/
theorem exit_cleanup_only_in_exectrack (es : Exectrack.ExecState)
    (ms : Memtrack.MemState) (ts tid_full exit_pid : Nat) (comm : String)
    (htracked : is_tracked (Exectrack.trackOf es) (pidOf tid_full) = true) :
    hasKey (Exectrack.tracepoint_sched_exit es ts tid_full comm).tracked_pids
      (pidOf tid_full) = false ∧
    lookupVal (Exectrack.tracepoint_sched_exit es ts tid_full comm).pids_ppid
      (pidOf tid_full) = none ∧
    Memtrack.memtrackStep ms ts (.schedExit exit_pid) = ms := by
  have ht2 : is_tracked ⟨es.tracked_pids, es.pids_ppid⟩ (pidOf tid_full) = true :=
    htracked
  refine ⟨?_, ?_, rfl⟩
  · simp [Exectrack.tracepoint_sched_exit, Exectrack.trackOf, ht2,
      Exectrack.withTrack, handle_exit, hasKey_removeKey_self]
  · simp [Exectrack.tracepoint_sched_exit, Exectrack.trackOf, ht2,
      Exectrack.withTrack, handle_exit, lookupVal_deleteKey_self]

/-- The exectrack counterpart of `c7MemState`: pid 7 tracked with a parent
link to pid 3. -/
def c7ExecState : Exectrack.ExecState :=
  { tracked_pids := [7], pids_ppid := [(7, 3)], events := [] }

/-- Witness for the amended C7: the exectrack exit hook of pid 7 removes
both entries, while the same process exit leaves `c7MemState` untouched. -/
theorem exit_cleanup_only_in_exectrack_witness :
    hasKey (Exectrack.tracepoint_sched_exit c7ExecState 2 (7 * 2 ^ 32 + 7)
      "bench").tracked_pids (pidOf (7 * 2 ^ 32 + 7)) = false ∧
    lookupVal (Exectrack.tracepoint_sched_exit c7ExecState 2 (7 * 2 ^ 32 + 7)
      "bench").pids_ppid (pidOf (7 * 2 ^ 32 + 7)) = none ∧
    Memtrack.memtrackStep c7MemState 2 (.schedExit 7) = c7MemState :=
  exit_cleanup_only_in_exectrack c7ExecState c7MemState 2 (7 * 2 ^ 32 + 7) 7
    "bench" (by decide)

/-- A memtrack state with pid 9 tracked and tracking explicitly enabled. -/
def c10State : Memtrack.MemState :=
  { tracked_pids := [9], pids_ppid := [], tracking_enabled := some 1,
    malloc_arg := [], calloc_arg := [], aligned_alloc_arg := [],
    memalign_arg := [], realloc_args := [], mmap_temp := [], brk_temp := [],
    events := [] }

/-- C10 counterexample: with pid 9 tracked and tracking enabled, a
process-image replacement (execve) triggers no hook of the allocation
program and emits no event — `memtrack.bpf.c` installs no exec hook and its
`event.h` namespace has no execve discriminant. -/
theorem memtrack_emits_no_execve_event :
    Memtrack.memtrackStep c10State 0 (.schedExec 9) = c10State ∧
    (Memtrack.memtrackStep c10State 0 (.schedExec 9)).events = [] :=
  ⟨rfl, rfl⟩

/-- The allocation program's event-type namespace, exactly as listed in
`crates/memtrack/src/ebpf/c/event.h`. -/
def allocEventTypes : List Nat :=
  [Memtrack.EVENT_TYPE_MALLOC, Memtrack.EVENT_TYPE_FREE,
   Memtrack.EVENT_TYPE_CALLOC, Memtrack.EVENT_TYPE_REALLOC,
   Memtrack.EVENT_TYPE_ALIGNED_ALLOC, Memtrack.EVENT_TYPE_MMAP,
   Memtrack.EVENT_TYPE_MUNMAP, Memtrack.EVENT_TYPE_BRK]

/-- `SUBMIT_EVENT` leaves the submitted list unchanged or appends exactly the
one record with its literal event type. -/
lemma SUBMIT_EVENT_shape (s : Memtrack.MemState) (ts tid et : Nat)
    (d : Memtrack.EventData) :
    (Memtrack.SUBMIT_EVENT s ts tid et d).events = s.events ∨
    (Memtrack.SUBMIT_EVENT s ts tid et d).events =
      s.events ++ [⟨et, ts, pidOf tid, tid % 2 ^ 32, d⟩] := by
  rw [Memtrack.SUBMIT_EVENT_events]
  split
  · right; rfl
  · left; rfl

/-- Any single hook of the allocation program either leaves the event list
unchanged or appends one record whose type code is in the allocation
namespace. -/
lemma memtrackStep_events_shape (ms : Memtrack.MemState) (ts : Nat)
    (h : Memtrack.MemHook) :
    (Memtrack.memtrackStep ms ts h).events = ms.events ∨
    ∃ ev, (Memtrack.memtrackStep ms ts h).events = ms.events ++ [ev] ∧
      ev.event_type ∈ allocEventTypes := by
  cases h with
  | uprobeMalloc tid size => left; simp [Memtrack.memtrackStep, Memtrack.uprobe_malloc]
  | uretprobeMalloc tid ret =>
    cases hl : lookupVal ms.malloc_arg tid with
    | none => left; simp [Memtrack.memtrackStep, Memtrack.uretprobe_malloc, Memtrack.take_param, hl]
    | some a =>
      simp only [Memtrack.memtrackStep, Memtrack.uretprobe_malloc, Memtrack.take_param, hl]
      split
      · left; simp
      · simp only [Memtrack.submit_alloc_event]
        rcases SUBMIT_EVENT_shape _ ts tid _ _ with hs | hs
        · left; simpa using hs
        · right
          exact ⟨⟨Memtrack.EVENT_TYPE_MALLOC, ts, pidOf tid, tid % 2 ^ 32,
            .alloc ret a⟩, by simpa using hs, by simp [allocEventTypes]⟩
  | uprobeFree tid addr =>
    simp only [Memtrack.memtrackStep, Memtrack.uprobe_free]
    split
    · left; rfl
    · simp only [Memtrack.submit_free_event]
      rcases SUBMIT_EVENT_shape _ ts tid _ _ with hs | hs
      · left; simpa using hs
      · right
        exact ⟨⟨Memtrack.EVENT_TYPE_FREE, ts, pidOf tid, tid % 2 ^ 32,
          .free addr⟩, by simpa using hs, by simp [allocEventTypes]⟩
  | uprobeCalloc tid nmemb size => left; simp [Memtrack.memtrackStep, Memtrack.uprobe_calloc]
  | uretprobeCalloc tid ret =>
    cases hl : lookupVal ms.calloc_arg tid with
    | none => left; simp [Memtrack.memtrackStep, Memtrack.uretprobe_calloc, Memtrack.take_param, hl]
    | some a =>
      simp only [Memtrack.memtrackStep, Memtrack.uretprobe_calloc, Memtrack.take_param, hl]
      split
      · left; simp
      · simp only [Memtrack.submit_calloc_event]
        rcases SUBMIT_EVENT_shape _ ts tid _ _ with hs | hs
        · left; simpa using hs
        · right
          exact ⟨⟨Memtrack.EVENT_TYPE_CALLOC, ts, pidOf tid, tid % 2 ^ 32,
            .alloc ret a⟩, by simpa using hs, by simp [allocEventTypes]⟩
  | uprobeRealloc tid ptr size =>
    simp only [Memtrack.memtrackStep, Memtrack.uprobe_realloc]
    split
    · left; rfl
    · left; simp
  | uretprobeRealloc tid ret =>
    cases hl : lookupVal ms.realloc_args tid with
    | none => left; simp [Memtrack.memtrackStep, Memtrack.uretprobe_realloc, Memtrack.take_param, hl]
    | some a =>
      simp only [Memtrack.memtrackStep, Memtrack.uretprobe_realloc, Memtrack.take_param, hl]
      split
      · left; simp
      · simp only [Memtrack.submit_realloc_event]
        rcases SUBMIT_EVENT_shape _ ts tid _ _ with hs | hs
        · left; simpa using hs
        · right
          exact ⟨⟨Memtrack.EVENT_TYPE_REALLOC, ts, pidOf tid, tid % 2 ^ 32,
            .realloc a.2 ret a.1⟩, by simpa using hs, by simp [allocEventTypes]⟩
  | uprobeAlignedAlloc tid size => left; simp [Memtrack.memtrackStep, Memtrack.uprobe_aligned_alloc]
  | uretprobeAlignedAlloc tid ret =>
    cases hl : lookupVal ms.aligned_alloc_arg tid with
    | none => left; simp [Memtrack.memtrackStep, Memtrack.uretprobe_aligned_alloc, Memtrack.take_param, hl]
    | some a =>
      simp only [Memtrack.memtrackStep, Memtrack.uretprobe_aligned_alloc, Memtrack.take_param, hl]
      split
      · left; simp
      · simp only [Memtrack.submit_aligned_alloc_event]
        rcases SUBMIT_EVENT_shape _ ts tid _ _ with hs | hs
        · left; simpa using hs
        · right
          exact ⟨⟨Memtrack.EVENT_TYPE_ALIGNED_ALLOC, ts, pidOf tid, tid % 2 ^ 32,
            .alloc ret a⟩, by simpa using hs, by simp [allocEventTypes]⟩
  | uprobeMemalign tid size => left; simp [Memtrack.memtrackStep, Memtrack.uprobe_memalign]
  | uretprobeMemalign tid ret =>
    cases hl : lookupVal ms.memalign_arg tid with
    | none => left; simp [Memtrack.memtrackStep, Memtrack.uretprobe_memalign, Memtrack.take_param, hl]
    | some a =>
      simp only [Memtrack.memtrackStep, Memtrack.uretprobe_memalign, Memtrack.take_param, hl]
      split
      · left; simp
      · simp only [Memtrack.submit_aligned_alloc_event]
        rcases SUBMIT_EVENT_shape _ ts tid _ _ with hs | hs
        · left; simpa using hs
        · right
          exact ⟨⟨Memtrack.EVENT_TYPE_ALIGNED_ALLOC, ts, pidOf tid, tid % 2 ^ 32,
            .alloc ret a⟩, by simpa using hs, by simp [allocEventTypes]⟩
  | schedFork parent_pid child_pid =>
    simp only [Memtrack.memtrackStep, Memtrack.tracepoint_sched_fork]
    split
    · left; simp
    · left; rfl
  | sysEnterMmap tid addr len =>
    simp only [Memtrack.memtrackStep, Memtrack.tracepoint_sys_enter_mmap]
    split
    · left; simp
    · left; rfl
  | sysExitMmap tid ret =>
    cases hl : lookupVal ms.mmap_temp tid with
    | none => left; simp [Memtrack.memtrackStep, Memtrack.tracepoint_sys_exit_mmap, Memtrack.take_param, hl]
    | some a =>
      simp only [Memtrack.memtrackStep, Memtrack.tracepoint_sys_exit_mmap, Memtrack.take_param, hl]
      split
      · left; simp
      · simp only [Memtrack.submit_mmap_event]
        rcases SUBMIT_EVENT_shape _ ts tid _ _ with hs | hs
        · left; simpa using hs
        · right
          exact ⟨⟨Memtrack.EVENT_TYPE_MMAP, ts, pidOf tid, tid % 2 ^ 32,
            .mmap ret.toNat a.2⟩, by simpa using hs, by simp [allocEventTypes]⟩
  | sysEnterMunmap tid addr len =>
    simp only [Memtrack.memtrackStep, Memtrack.tracepoint_sys_enter_munmap]
    split
    · left; rfl
    · simp only [Memtrack.submit_mmap_event]
      rcases SUBMIT_EVENT_shape _ ts tid _ _ with hs | hs
      · left; simpa using hs
      · right
        exact ⟨⟨Memtrack.EVENT_TYPE_MUNMAP, ts, pidOf tid, tid % 2 ^ 32,
          .mmap addr len⟩, by simpa using hs, by simp [allocEventTypes]⟩
  | sysEnterBrk tid requested_brk =>
    simp only [Memtrack.memtrackStep, Memtrack.tracepoint_sys_enter_brk]
    split
    · left; simp
    · left; rfl
  | sysExitBrk tid ret =>
    cases hl : lookupVal ms.brk_temp tid with
    | none => left; simp [Memtrack.memtrackStep, Memtrack.tracepoint_sys_exit_brk, Memtrack.take_param, hl]
    | some a =>
      simp only [Memtrack.memtrackStep, Memtrack.tracepoint_sys_exit_brk, Memtrack.take_param, hl]
      split
      · left; simp
      · simp only [Memtrack.submit_mmap_event]
        rcases SUBMIT_EVENT_shape _ ts tid _ _ with hs | hs
        · left; simpa using hs
        · right
          exact ⟨⟨Memtrack.EVENT_TYPE_BRK, ts, pidOf tid, tid % 2 ^ 32,
            .mmap ((ret % (2 ^ 64 : Int)).toNat) 0⟩, by simpa using hs, by simp [allocEventTypes]⟩
  | schedExec pid => left; rfl
  | schedExit pid => left; rfl

/-- C10 amended: the allocation program's event namespace consists of the
eight codes malloc, free, calloc, realloc, aligned_alloc, mmap, munmap, brk
(1..8) and contains no execve discriminant — every event any of its hooks
emits carries one of those eight codes — and the program attaches no hook
to process-image replacement, which leaves its state unchanged;
process-image replacement is instead observed by the lifecycle program,
whose exec hook emits one exec event (lifecycle code 2) for a tracked pid. -/
theorem alloc_namespace_has_no_execve (ms : Memtrack.MemState) (ts : Nat)
    (h : Memtrack.MemHook) (es : Exectrack.ExecState) (tid_full : Nat)
    (comm : String)
    (htracked : is_tracked (Exectrack.trackOf es) (pidOf tid_full) = true) :
    (∀ pid, Memtrack.memtrackStep ms ts (.schedExec pid) = ms) ∧
    (∀ e, e ∈ (Memtrack.memtrackStep ms ts h).events → e ∈ ms.events ∨
      e.event_type ∈ allocEventTypes) ∧
    (Exectrack.tracepoint_sched_exec es ts tid_full comm).events =
      es.events ++ [⟨Exectrack.EVENT_TYPE_EXEC, ts, pidOf tid_full,
        tid_full % 2 ^ 32, 0, comm⟩] := by
  refine ⟨fun _ => rfl, ?_, ?_⟩
  · intro e he
    rcases memtrackStep_events_shape ms ts h with hs | ⟨ev, hs, hty⟩
    · exact Or.inl (hs ▸ he)
    · rw [hs] at he
      rcases List.mem_append.mp he with h1 | h1
      · exact Or.inl h1
      · have : e = ev := by simpa using h1
        exact Or.inr (this ▸ hty)
  · simp [Exectrack.tracepoint_sched_exec, Exectrack.submit_event, htracked]

/-- Witness for the amended C10: in the tracked-and-enabled `c10State`, a
munmap hook appends one event whose code 7 is in the allocation namespace,
an exec leaves the program untouched, and the lifecycle program emits the
exec event for the tracked pid 7. -/
theorem alloc_namespace_has_no_execve_witness :
    Memtrack.memtrackStep c10State 1 (.schedExec 9) = c10State ∧
    ((⟨Memtrack.EVENT_TYPE_MUNMAP, 1, 9, 9, .mmap 4096 64⟩ : Memtrack.Event) ∈
      (Memtrack.memtrackStep c10State 1
        (.sysEnterMunmap (9 * 2 ^ 32 + 9) 4096 64)).events →
      (⟨Memtrack.EVENT_TYPE_MUNMAP, 1, 9, 9, .mmap 4096 64⟩ : Memtrack.Event) ∈
        c10State.events ∨
      (Memtrack.EVENT_TYPE_MUNMAP : Nat) ∈ allocEventTypes) ∧
    (Exectrack.tracepoint_sched_exec c7ExecState 1 (7 * 2 ^ 32 + 7)
      "bench").events = c7ExecState.events ++
      [⟨Exectrack.EVENT_TYPE_EXEC, 1, pidOf (7 * 2 ^ 32 + 7),
        (7 * 2 ^ 32 + 7) % 2 ^ 32, 0, "bench"⟩] := by
  have h := alloc_namespace_has_no_execve c10State 1
    (.sysEnterMunmap (9 * 2 ^ 32 + 9) 4096 64) c7ExecState (7 * 2 ^ 32 + 7)
    "bench" (by decide)
  exact ⟨h.1 9, fun hm => h.2.1 _ hm, h.2.2⟩
